import Mathlib

/-!
Verification of the AO collector frontend and of the spec-level query engine.

The TypeScript sources are shallowly embedded: JavaScript string operations
(`trim`, `toLowerCase`, `toUpperCase`, `includes`, `split(/\s+/)`) are modelled
by executable Lean functions over `String`/`List Char`, `Array.prototype.sort`
with a comparator is modelled by insertion sort on the comparator's
non-positive relation, and JavaScript truthiness on optional strings is
modelled explicitly.
-/

/-- Model of the JavaScript string `trim`: drop whitespace on both ends. -/
def jsTrim (s : String) : String :=
  ⟨((s.data.dropWhile Char.isWhitespace).reverse.dropWhile Char.isWhitespace).reverse⟩

/-- Model of the JavaScript string `toLowerCase` (basic-latin letters). -/
def jsLower (s : String) : String :=
  ⟨s.data.map Char.toLower⟩

/-- Model of the JavaScript string `toUpperCase` (basic-latin letters). -/
def jsUpper (s : String) : String :=
  ⟨s.data.map Char.toUpper⟩

/-- Whether `pat` occurs at the start of `hay`. -/
def isPrefB : List Char → List Char → Bool
  | [], _ => true
  | _ :: _, [] => false
  | a :: as, b :: bs => a == b && isPrefB as bs

/-- Whether `pat` occurs contiguously anywhere in `hay`. -/
def isSubB (pat : List Char) : List Char → Bool
  | [] => isPrefB pat []
  | hay@(_ :: rest) => isPrefB pat hay || isSubB pat rest

/-- Model of the JavaScript string `includes`: `strContains s pat` is
`s.includes(pat)`. -/
def strContains (s pat : String) : Bool :=
  isSubB pat.data s.data

/-- Splitting a character list at every separator character; models the
behaviour of splitting a string on a character class. -/
def splitChars (p : Char → Bool) : List Char → List Char → List (List Char)
  | [], acc => [acc.reverse]
  | c :: cs, acc => if p c then acc.reverse :: splitChars p cs [] else splitChars p cs (c :: acc)

/-- Model of the JavaScript `split(/\s+/)` up to the empty pieces that the
callers immediately filter away. -/
def jsSplitWs (s : String) : List String :=
  (splitChars Char.isWhitespace s.data []).map (fun l => ⟨l⟩)

/-- Model of the JavaScript `x || y` for an optional string `x`:
the first operand is kept when it is truthy (present and non-empty). -/
def jsOr (a : Option String) (b : String) : String :=
  match a with
  | none => b
  | some s => if s == "" then b else s

/-- Lexicographic three-way comparison of character lists by code point;
models the JavaScript relational operators on strings. -/
def listCmp : List Char → List Char → Ordering
  | [], [] => .eq
  | [], _ :: _ => .lt
  | _ :: _, [] => .gt
  | a :: as, b :: bs =>
    if a.toNat < b.toNat then .lt
    else if b.toNat < a.toNat then .gt
    else listCmp as bs

/-- Model of the JavaScript `a > b` on strings. -/
def strGtB (a b : String) : Bool :=
  listCmp a.data b.data == .gt

/-- Model of the JavaScript `a <= b` on strings. -/
def strLeB (a b : String) : Bool :=
  !(strGtB a b)

theorem listCmp_eq_iff : ∀ xs ys : List Char, listCmp xs ys = .eq ↔ xs = ys := by
  intro xs
  induction xs with
  | nil =>
    intro ys
    cases ys <;> simp [listCmp]
  | cons a as ih =>
    intro ys
    cases ys with
    | nil => simp [listCmp]
    | cons b bs =>
      by_cases h1 : a.toNat < b.toNat
      · simp only [listCmp, if_pos h1]
        constructor
        · intro h; exact absurd h (by simp)
        · rintro ⟨rfl, rfl⟩; omega
      · by_cases h2 : b.toNat < a.toNat
        · simp only [listCmp, if_neg h1, if_pos h2]
          constructor
          · intro h; exact absurd h (by simp)
          · rintro ⟨rfl, rfl⟩; omega
        · have hval : a.val.toNat = b.val.toNat := by
            simp only [Char.toNat] at h1 h2
            omega
          have hab : a = b := Char.ext (UInt32.toNat.inj hval)
          subst hab
          simp only [listCmp, if_neg h1, if_neg h2, List.cons.injEq]
          rw [ih bs]
          simp

theorem listCmp_gt_iff : ∀ xs ys : List Char, listCmp xs ys = .gt ↔ listCmp ys xs = .lt := by
  intro xs
  induction xs with
  | nil =>
    intro ys
    cases ys <;> simp [listCmp]
  | cons a as ih =>
    intro ys
    cases ys with
    | nil => simp [listCmp]
    | cons b bs =>
      by_cases h1 : a.toNat < b.toNat
      · have h2 : ¬ b.toNat < a.toNat := by omega
        simp [listCmp, h1, h2]
      · by_cases h2 : b.toNat < a.toNat
        · simp [listCmp, h1, h2]
        · simp only [listCmp, if_neg h1, if_neg h2]
          exact ih bs

theorem listCmp_le_trans : ∀ xs ys zs : List Char,
    listCmp xs ys ≠ .gt → listCmp ys zs ≠ .gt → listCmp xs zs ≠ .gt := by
  intro xs
  induction xs with
  | nil =>
    intro ys zs _ _
    cases zs <;> simp [listCmp]
  | cons a as ih =>
    intro ys zs hxy hyz
    cases ys with
    | nil => cases zs <;> simp [listCmp] at hxy
    | cons b bs =>
      cases zs with
      | nil => simp [listCmp] at hyz
      | cons c cs =>
        by_cases hab1 : a.toNat < b.toNat
        · by_cases hbc1 : b.toNat < c.toNat
          · have : a.toNat < c.toNat := by omega
            simp [listCmp, this]
          · by_cases hbc2 : c.toNat < b.toNat
            · simp [listCmp, hbc1, hbc2] at hyz
            · have hbc : b.toNat = c.toNat := by omega
              have : a.toNat < c.toNat := by omega
              simp [listCmp, this]
        · by_cases hab2 : b.toNat < a.toNat
          · simp [listCmp, hab1, hab2] at hxy
          · have hab : a.toNat = b.toNat := by omega
            by_cases hbc1 : b.toNat < c.toNat
            · have : a.toNat < c.toNat := by omega
              simp [listCmp, this]
            · by_cases hbc2 : c.toNat < b.toNat
              · simp [listCmp, hbc1, hbc2] at hyz
              · have h1 : ¬ a.toNat < c.toNat := by omega
                have h2 : ¬ c.toNat < a.toNat := by omega
                simp only [listCmp, if_neg h1, if_neg h2]
                simp only [listCmp, if_neg hab1, if_neg hab2] at hxy
                simp only [listCmp, if_neg hbc1, if_neg hbc2] at hyz
                exact ih bs cs hxy hyz

theorem strGtB_iff (a b : String) : strGtB a b = true ↔ listCmp a.data b.data = .gt := by
  unfold strGtB
  cases h : listCmp a.data b.data <;> decide

theorem strLeB_iff (a b : String) : strLeB a b = true ↔ ¬ listCmp a.data b.data = .gt := by
  unfold strLeB strGtB
  cases h : listCmp a.data b.data <;> decide

theorem strLeB_total (a b : String) : strLeB a b = true ∨ strLeB b a = true := by
  by_cases h : listCmp a.data b.data = .gt
  · right
    have h2 : listCmp b.data a.data = .lt := (listCmp_gt_iff _ _).mp h
    rw [strLeB_iff, h2]
    simp
  · left
    exact (strLeB_iff a b).mpr h

theorem strLeB_trans (a b c : String) (h1 : strLeB a b = true) (h2 : strLeB b c = true) :
    strLeB a c = true := by
  rw [strLeB_iff] at h1 h2 ⊢
  exact listCmp_le_trans _ _ _ h1 h2

/-- Insert into a sorted list in front of the first element that the boolean
relation `le` allows; the building block of the insertion-sort model of
`Array.prototype.sort`. -/
def insertW (le : α → α → Bool) (a : α) : List α → List α
  | [] => [a]
  | b :: l => if le a b then a :: b :: l else b :: insertW le a l

/-- Insertion sort on a boolean relation, modelling a JavaScript comparator
sort via the relation `comparator a b ≤ 0`. -/
def sortWith (le : α → α → Bool) : List α → List α
  | [] => []
  | a :: l => insertW le a (sortWith le l)

theorem perm_insertW (le : α → α → Bool) (a : α) : ∀ l : List α, List.Perm (insertW le a l) (a :: l) := by
  intro l
  induction l with
  | nil => simp [insertW]
  | cons b l ih =>
    by_cases h : le a b
    · simp [insertW, h]
    · simp only [insertW, if_neg h]
      exact (ih.cons b).trans (List.Perm.swap a b l)

theorem perm_sortWith (le : α → α → Bool) : ∀ l : List α, List.Perm (sortWith le l) l := by
  intro l
  induction l with
  | nil => simp [sortWith]
  | cons a l ih =>
    exact (perm_insertW le a (sortWith le l)).trans (ih.cons a)

theorem length_sortWith (le : α → α → Bool) (l : List α) :
    (sortWith le l).length = l.length :=
  (perm_sortWith le l).length_eq

theorem mem_sortWith (le : α → α → Bool) (l : List α) (x : α) :
    x ∈ sortWith le l ↔ x ∈ l :=
  (perm_sortWith le l).mem_iff

theorem mem_insertW (le : α → α → Bool) (a x : α) (l : List α) :
    x ∈ insertW le a l ↔ x = a ∨ x ∈ l := by
  rw [(perm_insertW le a l).mem_iff, List.mem_cons]

theorem pairwise_insertW (le : α → α → Bool)
    (htot : ∀ x y, le x y = true ∨ le y x = true)
    (htrans : ∀ x y z, le x y = true → le y z = true → le x z = true)
    (a : α) : ∀ l : List α, List.Pairwise (fun x y => le x y = true) l →
      List.Pairwise (fun x y => le x y = true) (insertW le a l) := by
  intro l
  induction l with
  | nil => intro _; simp [insertW]
  | cons b l ih =>
    intro hp
    rcases List.pairwise_cons.mp hp with ⟨hb, hl⟩
    by_cases h : le a b
    · simp only [insertW, if_pos h]
      refine List.pairwise_cons.mpr ⟨?_, hp⟩
      intro x hx
      rcases List.mem_cons.mp hx with hxb | hx
      · rw [hxb]; exact h
      · exact htrans a b x h (hb x hx)
    · simp only [insertW, if_neg h]
      refine List.pairwise_cons.mpr ⟨?_, ih hl⟩
      intro x hx
      rcases (mem_insertW le a x l).mp hx with hxa | hx
      · rw [hxa]
        rcases htot a b with hab | hba
        · exact absurd hab h
        · exact hba
      · exact hb x hx

theorem pairwise_sortWith (le : α → α → Bool)
    (htot : ∀ x y, le x y = true ∨ le y x = true)
    (htrans : ∀ x y z, le x y = true → le y z = true → le x z = true) :
    ∀ l : List α, List.Pairwise (fun x y => le x y = true) (sortWith le l) := by
  intro l
  induction l with
  | nil => simp [sortWith]
  | cons a l ih =>
    exact pairwise_insertW le htot htrans a _ ih

theorem isPrefB_iff : ∀ pat hay : List Char, isPrefB pat hay = true ↔ pat <+: hay := by
  intro pat
  induction pat with
  | nil => intro hay; simp [isPrefB]
  | cons a as ih =>
    intro hay
    cases hay with
    | nil =>
      simp only [isPrefB, Bool.false_eq_true, false_iff]
      intro h
      exact absurd h.length_le (by simp)
    | cons b bs =>
      simp only [isPrefB, Bool.and_eq_true, beq_iff_eq, ih bs, List.cons_prefix_cons]

theorem isSubB_iff : ∀ hay pat : List Char, isSubB pat hay = true ↔ pat <:+: hay := by
  intro hay
  induction hay with
  | nil =>
    intro pat
    cases pat with
    | nil => simp [isSubB, isPrefB]
    | cons a as =>
      simp only [isSubB, isPrefB, Bool.false_eq_true, false_iff]
      intro h
      exact absurd h.length_le (by simp)
  | cons b bs ih =>
    intro pat
    simp only [isSubB, Bool.or_eq_true, isPrefB_iff, ih, List.infix_cons_iff]

theorem strContains_iff (s pat : String) :
    strContains s pat = true ↔ pat.data <:+: s.data :=
  isSubB_iff s.data pat.data

namespace Dash

/-- Value space of the backend field `est_ats` as it may arrive in a raw
record: a boolean, a number, a string, `null`, or absent (`undefined`). -/
inductive JsVal where
  | b (v : Bool)
  | num (n : Int)
  | str (s : String)
  | null
  | undef
deriving DecidableEq

/-- Raw tender record as received from the backend, with English fields and
optional legacy French fields (`src/unnamed/part_000`, interface RawTender). -/
structure RawTender where
  id : Int
  title : Option String := none
  url : Option String := none
  published_at : Option String := none
  country : Option String := none
  region : Option String := none
  portal_name : Option String := none
  buyer : Option String := none
  est_ats : JsVal := .undef
  source : Option String := none
  titre : Option String := none
  lien : Option String := none
  date_publication : Option String := none
  date_cloture : Option String := none
  pays : Option String := none
  portail : Option String := none
  acheteur : Option String := none
deriving DecidableEq

/-- Canonical tender shape used by the dashboard
(`src/unnamed/part_000`, interface Tender). -/
structure Tender where
  id : Int
  titre : String
  acheteur : String
  pays : String
  region : String
  date_publication : String
  date_cloture : String
  portail : String
  lien : String
  est_ats : Bool
deriving DecidableEq

/-- The `est_ats` coercion inside `normalizeTender`:
`typeof raw.est_ats === "boolean" ? raw.est_ats : raw.est_ats === 1 || raw.est_ats === "1"`. -/
def estAtsOf : JsVal → Bool
  | .b v => v
  | .num n => n == 1
  | .str s => s == "1"
  | .null => false
  | .undef => false

/-- Embedding of `normalizeTender` (`src/unnamed/part_000`, lines 67-94 and
643-670): each canonical field is an or-chain over its alias list, ending in
the empty string. -/
def normalizeTender (raw : RawTender) : Tender :=
  let titre := jsOr raw.titre (jsOr raw.title "")
  let acheteur := jsOr raw.acheteur (jsOr raw.buyer "")
  let pays := jsOr raw.pays (jsOr raw.country "")
  let region := jsOr raw.region ""
  let date_publication := jsOr raw.date_publication (jsOr raw.published_at "")
  let date_cloture := jsOr raw.date_cloture ""
  let portail := jsOr raw.portail (jsOr raw.portal_name (jsOr raw.source ""))
  let lien := jsOr raw.lien (jsOr raw.url "")
  let est_ats := estAtsOf raw.est_ats
  { id := raw.id
    titre := titre
    acheteur := acheteur
    pays := pays
    region := region
    date_publication := date_publication
    date_cloture := date_cloture
    portail := portail
    lien := lien
    est_ats := est_ats }

/-- The three search-field options of the dashboard. -/
inductive SearchField where
  | title
  | buyer
  | title_buyer
deriving DecidableEq

/-- Embedding of the `visibleTenders` memo (`src/unnamed/part_000`,
lines 1488-1511): portal filter, country filter, ATS filter, then the
text-query filter over the selected search field. -/
def visibleTenders (tenders : List Tender) (portalFilter countryFilter : String)
    (atsOnly : Bool) (query : String) (searchField : SearchField) : List Tender :=
  let list := tenders
  let list := if portalFilter != "ALL" then list.filter (fun t => jsTrim t.portail == portalFilter) else list
  let list := if countryFilter != "ALL" then list.filter (fun t => jsTrim t.pays == countryFilter) else list
  let list := if atsOnly then list.filter (fun t => t.est_ats) else list
  let q := jsLower (jsTrim query)
  if q == "" then list
  else
    list.filter (fun t =>
      match searchField with
      | .title => strContains (jsLower t.titre) q
      | .buyer => strContains (jsLower t.acheteur) q
      | .title_buyer => strContains (jsLower t.titre) q || strContains (jsLower t.acheteur) q)

end Dash

/-- Spec-words probe for claim C4: the first non-empty value found along the
ordered alias list, amended to return it verbatim (no trimming). -/
def specProbeFirst : List (Option String) → String
  | [] => ""
  | none :: rest => specProbeFirst rest
  | some s :: rest => if s = "" then specProbeFirst rest else s

namespace Table

/-- Column identifiers of the results table (`src/frontend/src/App.tsx`,
type ColumnKey). -/
inductive ColumnKey where
  | id
  | title
  | portal
  | source
  | buyer
  | country
  | region
  | budget
  | published_at
  | closing_at
  | score
deriving DecidableEq

/-- Fields available to the quick filter (`src/frontend/src/App.tsx`,
type QuickField). -/
inductive QuickField where
  | title
  | buyer
  | portal
  | source
  | country
  | region
  | category
  | matched_keywords
deriving DecidableEq

/-- Sort direction (`asc` or `desc`). -/
inductive SortDir where
  | asc
  | desc
deriving DecidableEq

/-- Sort state of the table (`src/frontend/src/App.tsx`, type SortState). -/
structure SortState where
  key : ColumnKey
  direction : SortDir
deriving DecidableEq

/-- Column alignment annotation. -/
inductive Align where
  | left
  | center
  | right
deriving DecidableEq

/-- One entry of `ALL_COLUMNS`. -/
structure ColumnDef where
  key : ColumnKey
  label : String
  align : Option Align := none
  locked : Bool := false
deriving DecidableEq

/-- Embedding of `ALL_COLUMNS` (`src/frontend/src/App.tsx`, lines 78-95). -/
def ALL_COLUMNS : List ColumnDef :=
  [ { key := .id, label := "ID", align := some .left, locked := true }
  , { key := .title, label := "Titre", align := some .left, locked := true }
  , { key := .portal, label := "Portail" }
  , { key := .source, label := "Source" }
  , { key := .buyer, label := "Acheteur" }
  , { key := .country, label := "Pays", align := some .center }
  , { key := .region, label := "Région", align := some .center }
  , { key := .budget, label := "Budget", align := some .right }
  , { key := .published_at, label := "Publiée", align := some .center }
  , { key := .closing_at, label := "Fermeture", align := some .center }
  , { key := .score, label := "Score", align := some .right } ]

/-- Tender row as served to the table (`src/frontend/src/App.tsx`,
type Tender). -/
structure Tender where
  id : Int
  source : String
  portal : String
  country : Option String := none
  region : Option String := none
  buyer : Option String := none
  title : String
  url : String
  published_at : Option String := none
  closing_at : Option String := none
  budget : Option Int := none
  category : Option String := none
  matched_keywords : Option String := none
  score : Option Int := none
deriving DecidableEq

/-- Initial column-visibility set (`src/frontend/src/App.tsx`,
lines 124-136). -/
def initialVisibleColumns : Finset ColumnKey :=
  {.id, .title, .portal, .source, .buyer, .country, .budget, .published_at}

/-- Initial sort state: `published_at` descending (`src/frontend/src/App.tsx`,
lines 139-142). -/
def initialSortState : SortState :=
  { key := .published_at, direction := .desc }

/-- Embedding of `toggleColumn` (`src/frontend/src/App.tsx`, lines 261-271):
a locked column is left untouched, otherwise the key is removed from or added
to the visibility set. -/
def toggleColumn (key : ColumnKey) (prev : Finset ColumnKey) : Finset ColumnKey :=
  let colMeta := ALL_COLUMNS.find? (fun c => c.key == key)
  if (colMeta.map (fun c => c.locked)).getD false then prev
  else if key ∈ prev then prev.erase key else insert key prev

/-- The string read by the quick filter from a row:
`((t as any)[quickField] ?? "").toString()`. -/
def quickVal (qf : QuickField) (t : Tender) : String :=
  match qf with
  | .title => t.title
  | .buyer => t.buyer.getD ""
  | .portal => t.portal
  | .source => t.source
  | .country => t.country.getD ""
  | .region => t.region.getD ""
  | .category => t.category.getD ""
  | .matched_keywords => t.matched_keywords.getD ""

/-- The lowercased whitespace-split terms of the main query:
`query.split(/\s+/).map((t) => t.toLowerCase()).filter(Boolean)`. -/
def queryTerms (query : String) : List String :=
  ((jsSplitWs query).map jsLower).filter (fun s => s != "")

/-- One term test of the main query filter: the term must occur in the
lowercased title, buyer, source or portal. -/
def queryHit (t : Tender) (term : String) : Bool :=
  strContains (jsLower t.title) term ||
  strContains (jsLower (t.buyer.getD "")) term ||
  strContains (jsLower t.source) term ||
  strContains (jsLower t.portal) term

/-- The date-typed column read by the comparator. -/
def dateVal (key : ColumnKey) (t : Tender) : Option String :=
  match key with
  | .published_at => t.published_at
  | .closing_at => t.closing_at
  | _ => none

/-- The number-typed column read by the comparator; `none` plays the role of
`-Infinity` after the `va == null` coercion. -/
def numVal (key : ColumnKey) (t : Tender) : Option Int :=
  match key with
  | .id => some t.id
  | .budget => t.budget
  | .score => t.score
  | _ => none

/-- The string read by the comparator's generic branch, before lowercasing:
`(va || "").toString()`. -/
def strVal (key : ColumnKey) (t : Tender) : String :=
  match key with
  | .title => t.title
  | .portal => t.portal
  | .source => t.source
  | .buyer => t.buyer.getD ""
  | .country => t.country.getD ""
  | .region => t.region.getD ""
  | _ => ""

/-- Embedding of the sort comparator inside `filteredTenders`
(`src/frontend/src/App.tsx`, lines 347-372): date columns compare as raw
strings, numeric columns as numbers with `null` as minus infinity, and the
remaining columns as lowercased strings. -/
def sortCmp (st : SortState) (a b : Tender) : Int :=
  let dir : Int := if st.direction == .asc then 1 else -1
  if st.key == .published_at || st.key == .closing_at then
    let sa := (dateVal st.key a).getD ""
    let sb := (dateVal st.key b).getD ""
    if sa == sb then 0 else if strGtB sa sb then dir else -dir
  else if st.key == .id || st.key == .budget || st.key == .score then
    match numVal st.key a, numVal st.key b with
    | none, none => 0
    | none, some _ => -dir
    | some _, none => dir
    | some x, some y => if x == y then 0 else if x > y then dir else -dir
  else
    let sa := jsLower (strVal st.key a)
    let sb := jsLower (strVal st.key b)
    if sa == sb then 0 else if strGtB sa sb then dir else -dir

/-- Embedding of the `filteredTenders` memo (`src/frontend/src/App.tsx`,
lines 300-375): country filter, portal filter, main query filter, quick
filter, then the comparator sort. -/
def filteredTenders (tenders : List Tender) (countryFilter portalFilter query : String)
    (quickField : QuickField) (quickValue : String) (sortState : SortState) : List Tender :=
  let rows := tenders
  let rows :=
    if countryFilter != "ALL" then
      rows.filter (fun t => jsUpper (t.country.getD "") == jsUpper countryFilter)
    else rows
  let rows :=
    if portalFilter != "ALL" then
      rows.filter (fun t => jsUpper t.portal == jsUpper portalFilter || jsUpper t.source == jsUpper portalFilter)
    else rows
  let rows :=
    if jsTrim query != "" then
      rows.filter (fun t => (queryTerms query).all (fun term => queryHit t term))
    else rows
  let rows :=
    if jsTrim quickValue != "" then
      let v := jsLower (jsTrim quickValue)
      rows.filter (fun t => strContains (jsLower (quickVal quickField t)) v)
    else rows
  sortWith (fun a b => decide (sortCmp sortState a b ≤ 0)) rows

end Table

namespace Spec

/-- Modelled from the spec: the canonical Tender shape of the backend
(Data Model, section 3); the backend implementation is not part of the
frontend sources, so the record keeps the canonical fields the Filter
Engine and Stats Aggregator read, with dates as abstract day numbers. -/
structure Tender where
  title : String
  buyer : String
  country : String
  portal : String
  category : String
  matched_keywords : List String
  published_at : Nat
  closing_at : Option Nat := none
  est_ats : Bool := false
deriving DecidableEq

/-- Modelled from the spec: the `closing_window` filter option
(section 4.4). -/
inductive ClosingWindow where
  | any
  | lt_7d
  | lt_30d
  | expired
deriving DecidableEq

/-- Modelled from the spec: the `search_field` filter option
(section 4.4). -/
inductive SearchField where
  | title
  | buyer
  | title_buyer
deriving DecidableEq

/-- Modelled from the spec: the filter configuration of the Filter Engine
(section 4.4). -/
structure FilterConfig where
  country : String := "ALL"
  portal : String := "ALL"
  date_from : Option Nat := none
  date_to : Option Nat := none
  closing_window : ClosingWindow := .any
  query : String := ""
  search_field : SearchField := .title_buyer
  ats_only : Bool := false
deriving DecidableEq

/-- Modelled from the spec: the single predicate the Filter Engine produces
from a filter configuration, "evaluated identically by every caller"
(section 4.4); the backend implementation is not in the sources. -/
def tenderMatches (now : Nat) (f : FilterConfig) (t : Tender) : Bool :=
  (f.country == "ALL" || t.country == f.country) &&
  (f.portal == "ALL" || t.portal == f.portal) &&
  (match f.date_from with | none => true | some d => decide (d ≤ t.published_at)) &&
  (match f.date_to with | none => true | some d => decide (t.published_at ≤ d)) &&
  (match f.closing_window with
    | .any => true
    | .lt_7d => match t.closing_at with
      | none => false
      | some c => decide (now ≤ c) && decide (c < now + 7)
    | .lt_30d => match t.closing_at with
      | none => false
      | some c => decide (now ≤ c) && decide (c < now + 30)
    | .expired => match t.closing_at with
      | none => false
      | some c => decide (c < now)) &&
  (let q := jsLower (jsTrim f.query)
   q == "" ||
   (match f.search_field with
    | .title => strContains (jsLower t.title) q
    | .buyer => strContains (jsLower t.buyer) q
    | .title_buyer => strContains (jsLower t.title) q || strContains (jsLower t.buyer) q)) &&
  (!f.ats_only || t.est_ats)

/-- Modelled from the spec: `listTenders(filter, limit)`, "ordered sequence
of Tender, default sort published_at descending" (section 6); `none` as the
limit is the unlimited listing. -/
def listTenders (now : Nat) (f : FilterConfig) (store : List Tender)
    (limit : Option Nat) : List Tender :=
  let fs := store.filter (tenderMatches now f)
  let sorted := sortWith (fun a b => decide (b.published_at ≤ a.published_at)) fs
  match limit with
  | none => sorted
  | some n => sorted.take n

/-- Modelled from the spec: the report shape `{total_tenders,
distinct_bucket_count, [(bucket_label, count)]}` (sections 4.5 and 6). -/
structure StatsReport where
  total_tenders : Nat
  distinct_buckets : Nat
  buckets : List (String × Nat)
deriving DecidableEq

/-- Modelled from the spec: bucket order, "count descending, ties broken by
bucket_label ascending" (section 4.5). -/
def bucketLe (x y : String × Nat) : Bool :=
  decide (y.2 < x.2) || (x.2 == y.2 && strLeB x.1 y.1)

/-- Modelled from the spec: grouped counts over the filtered set for a
bucket-key view where every tender falls in exactly one bucket
(section 4.5, dimensions `category` and `portal`). -/
def statsBy (key : Tender → String) (now : Nat) (f : FilterConfig)
    (store : List Tender) (top_n : Option Nat) : StatsReport :=
  let fs := store.filter (tenderMatches now f)
  let labels := (fs.map key).dedup
  let sorted := sortWith bucketLe
    (labels.map (fun c => (c, (fs.filter (fun t => key t == c)).length)))
  { total_tenders := fs.length
    distinct_buckets := labels.length
    buckets := match top_n with | none => sorted | some n => sorted.take n }

/-- Modelled from the spec: `statsByCategory(filter, top_n)` (section 6). -/
def statsByCategory (now : Nat) (f : FilterConfig) (store : List Tender)
    (top_n : Option Nat) : StatsReport :=
  statsBy (fun t => t.category) now f store top_n

/-- Modelled from the spec: `statsByPortal(filter, top_n)` (section 6). -/
def statsByPortal (now : Nat) (f : FilterConfig) (store : List Tender)
    (top_n : Option Nat) : StatsReport :=
  statsBy (fun t => t.portal) now f store top_n

/-- Modelled from the spec: `statsByKeyword(filter, top_n)` (sections 4.5 and
6): a tender with N matched keywords contributes one count to each of its N
keyword buckets, while total_tenders stays the size of the filtered set. -/
def statsByKeyword (now : Nat) (f : FilterConfig) (store : List Tender)
    (top_n : Option Nat) : StatsReport :=
  let fs := store.filter (tenderMatches now f)
  let labels := (fs.flatMap (fun t => t.matched_keywords)).dedup
  let sorted := sortWith bucketLe
    (labels.map (fun c => (c, (fs.filter (fun t => t.matched_keywords.contains c)).length)))
  { total_tenders := fs.length
    distinct_buckets := labels.length
    buckets := match top_n with | none => sorted | some n => sorted.take n }

end Spec

/-- Sum of the per-bucket counts of a stats report. -/
def sumCounts (buckets : List (String × Nat)) : Nat :=
  (buckets.map (fun b => b.2)).sum

theorem length_filter_split (p : α → Bool) :
    ∀ l : List α, (l.filter p).length + (l.filter (fun a => !(p a))).length = l.length := by
  intro l
  induction l with
  | nil => simp
  | cons a l ih =>
    cases h : p a
    · simp [List.filter_cons, h]
      omega
    · simp [List.filter_cons, h]
      omega

theorem sum_bucket_counts (key : α → String) :
    ∀ (labels : List String) (fs : List α), labels.Nodup →
      (∀ t ∈ fs, key t ∈ labels) →
      (labels.map (fun c => (fs.filter (fun t => key t == c)).length)).sum = fs.length := by
  intro labels
  induction labels with
  | nil =>
    intro fs _ hcov
    cases fs with
    | nil => simp
    | cons t ts => exact absurd (hcov t (by simp)) (by simp)
  | cons c rest ih =>
    intro fs hnd hcov
    rcases List.nodup_cons.mp hnd with ⟨hc, hndr⟩
    have hmap : rest.map (fun d => (fs.filter (fun t => key t == d)).length)
        = rest.map (fun d => ((fs.filter (fun t => !(key t == c))).filter
            (fun t => key t == d)).length) := by
      apply List.map_congr_left
      intro d hd
      have hdc : d ≠ c := fun h => hc (h ▸ hd)
      rw [List.filter_filter]
      congr 1
      apply List.filter_congr
      intro t _
      by_cases hkd : key t = d
      · have hkc : ¬ key t = c := fun h => hdc (hkd ▸ h)
        simp [hkd, hkc, hdc]
      · simp [hkd]
    have hcov2 : ∀ t ∈ fs.filter (fun t => !(key t == c)), key t ∈ rest := by
      intro t ht
      rcases List.mem_filter.mp ht with ⟨htf, hnc⟩
      have := hcov t htf
      rcases List.mem_cons.mp this with hkc | hr
      · exact absurd hkc (by simpa using hnc)
      · exact hr
    calc ((c :: rest).map (fun d => (fs.filter (fun t => key t == d)).length)).sum
        = (fs.filter (fun t => key t == c)).length
          + (rest.map (fun d => (fs.filter (fun t => key t == d)).length)).sum := by
          simp
      _ = (fs.filter (fun t => key t == c)).length
          + (fs.filter (fun t => !(key t == c))).length := by
          rw [hmap, ih (fs.filter (fun t => !(key t == c))) hndr hcov2]
      _ = fs.length := length_filter_split (fun t => key t == c) fs

theorem sumCounts_sortWith (le : String × Nat → String × Nat → Bool)
    (l : List (String × Nat)) : sumCounts (sortWith le l) = sumCounts l := by
  unfold sumCounts
  exact List.Perm.sum_eq (List.Perm.map _ (perm_sortWith le l))

theorem sumCounts_statsBy (key : Spec.Tender → String) (now : Nat)
    (f : Spec.FilterConfig) (store : List Spec.Tender) :
    sumCounts (Spec.statsBy key now f store none).buckets
      = (Spec.statsBy key now f store none).total_tenders := by
  unfold Spec.statsBy
  simp only
  rw [sumCounts_sortWith]
  have hnd := List.nodup_dedup ((store.filter (Spec.tenderMatches now f)).map key)
  have hcov : ∀ t ∈ store.filter (Spec.tenderMatches now f),
      key t ∈ ((store.filter (Spec.tenderMatches now f)).map key).dedup := by
    intro t ht
    exact List.mem_dedup.mpr (List.mem_map_of_mem key ht)
  have := sum_bucket_counts key
    ((store.filter (Spec.tenderMatches now f)).map key).dedup
    (store.filter (Spec.tenderMatches now f)) hnd hcov
  unfold sumCounts
  rw [List.map_map]
  exact this

/-- C1: for every filter configuration evaluated over the same committed
tender collection, the listing path and the stats path operate over set-equal
filtered collections: statsByCategory(F).total_tenders equals the length of
listTenders(F, unlimited), and the per-bucket counts of statsByCategory and
statsByPortal sum to total_tenders. -/
theorem claim1_filter_consistency (now : Nat) (f : Spec.FilterConfig)
    (store : List Spec.Tender) :
    (Spec.statsByCategory now f store none).total_tenders
      = (Spec.listTenders now f store none).length ∧
    sumCounts (Spec.statsByCategory now f store none).buckets
      = (Spec.statsByCategory now f store none).total_tenders ∧
    sumCounts (Spec.statsByPortal now f store none).buckets
      = (Spec.statsByPortal now f store none).total_tenders := by
  refine ⟨?_, sumCounts_statsBy _ now f store, sumCounts_statsBy _ now f store⟩
  unfold Spec.statsByCategory Spec.statsBy Spec.listTenders
  simp only
  rw [length_sortWith]

theorem bucketLe_total (x y : String × Nat) :
    Spec.bucketLe x y = true ∨ Spec.bucketLe y x = true := by
  rcases Nat.lt_trichotomy x.2 y.2 with h | h | h
  · right
    simp [Spec.bucketLe, h]
  · rcases strLeB_total x.1 y.1 with hs | hs
    · left
      simp [Spec.bucketLe, h, hs]
    · right
      simp [Spec.bucketLe, h, hs]
  · left
    simp [Spec.bucketLe, h]

theorem bucketLe_trans (x y z : String × Nat) (h1 : Spec.bucketLe x y = true)
    (h2 : Spec.bucketLe y z = true) : Spec.bucketLe x z = true := by
  simp only [Spec.bucketLe, Bool.or_eq_true, Bool.and_eq_true, decide_eq_true_eq,
    beq_iff_eq] at h1 h2 ⊢
  rcases h1 with h1 | ⟨h1e, h1s⟩
  · rcases h2 with h2 | ⟨h2e, h2s⟩
    · left; omega
    · left; omega
  · rcases h2 with h2 | ⟨h2e, h2s⟩
    · left; omega
    · right
      exact ⟨by omega, strLeB_trans _ _ _ h1s h2s⟩

/-- The spec-words bucket order: count descending, ties broken by the bucket
label ascending. -/
def bucketOrder (x y : String × Nat) : Prop :=
  y.2 < x.2 ∨ (x.2 = y.2 ∧ strLeB x.1 y.1 = true)

theorem bucketOrder_of_bucketLe (x y : String × Nat) (h : Spec.bucketLe x y = true) :
    bucketOrder x y := by
  simp only [Spec.bucketLe, Bool.or_eq_true, Bool.and_eq_true, decide_eq_true_eq,
    beq_iff_eq] at h
  exact h

/-- One tender of the claim C8 scenario. -/
def scenTender (i : Nat) (kws : List String) : Spec.Tender :=
  { title := "t", buyer := "b", country := "CA", portal := "SEAO", category := "TI",
    matched_keywords := kws, published_at := i, closing_at := none, est_ats := true }

/-- The claim C8 scenario store: 4 tenders matching both keywords, 8 matching
only "odoo" and 4 matching only "servicenow", so that "odoo" matches 12
tenders, "servicenow" matches 8, and the filtered set has 16 distinct
tenders while the keyword hits sum to 20. -/
def scenarioStore : List Spec.Tender :=
  ((List.range 4).map (fun i => scenTender i ["odoo", "servicenow"])) ++
  ((List.range 8).map (fun i => scenTender (4 + i) ["odoo"])) ++
  ((List.range 4).map (fun i => scenTender (12 + i) ["servicenow"]))

/-- The all-pass filter configuration used in the claim C8 scenario. -/
def scenFilter : Spec.FilterConfig := {}

/-- C8: statsByKeyword returns its (bucket_label, count) pairs sorted by count
descending with ties broken by bucket_label ascending, truncated to top_n;
in the scenario where "odoo" matches 12 tenders and "servicenow" matches 8,
top_n = 1 returns exactly [("odoo", 12)], and total_tenders equals the number
of distinct tenders in the filtered set (16), not the sum of keyword hits
(20). -/
theorem claim8_statsByKeyword :
    (∀ (now : Nat) (f : Spec.FilterConfig) (store : List Spec.Tender) (n : Nat),
      List.Pairwise bucketOrder (Spec.statsByKeyword now f store (some n)).buckets ∧
      (Spec.statsByKeyword now f store (some n)).buckets.length ≤ n ∧
      (Spec.statsByKeyword now f store (some n)).total_tenders
        = (store.filter (Spec.tenderMatches now f)).length) ∧
    (Spec.statsByKeyword 0 scenFilter scenarioStore (some 1)).buckets = [("odoo", 12)] ∧
    (Spec.statsByKeyword 0 scenFilter scenarioStore (some 1)).total_tenders = 16 ∧
    sumCounts (Spec.statsByKeyword 0 scenFilter scenarioStore none).buckets = 20 := by
  refine ⟨?_, by rfl, by rfl, by rfl⟩
  intro now f store n
  refine ⟨?_, ?_, ?_⟩
  · unfold Spec.statsByKeyword
    simp only
    have hp := pairwise_sortWith Spec.bucketLe bucketLe_total bucketLe_trans
      ((((store.filter (Spec.tenderMatches now f)).flatMap
          (fun t => t.matched_keywords)).dedup).map
        (fun c => (c, ((store.filter (Spec.tenderMatches now f)).filter
          (fun t => t.matched_keywords.contains c)).length)))
    have hp2 : List.Pairwise bucketOrder
        (sortWith Spec.bucketLe
          ((((store.filter (Spec.tenderMatches now f)).flatMap
              (fun t => t.matched_keywords)).dedup).map
            (fun c => (c, ((store.filter (Spec.tenderMatches now f)).filter
              (fun t => t.matched_keywords.contains c)).length)))) :=
      hp.imp (fun h => bucketOrder_of_bucketLe _ _ h)
    exact hp2.sublist (List.take_sublist n _)
  · unfold Spec.statsByKeyword
    simp only
    exact List.length_take_le n _
  · rfl

theorem estAtsOf_true_iff (v : Dash.JsVal) :
    Dash.estAtsOf v = true ↔ (v = .b true ∨ v = .num 1 ∨ v = .str "1") := by
  cases v with
  | b b => cases b <;> simp [Dash.estAtsOf]
  | num n => simp [Dash.estAtsOf]
  | str s => simp [Dash.estAtsOf]
  | null => simp [Dash.estAtsOf]
  | undef => simp [Dash.estAtsOf]

/-- C9: the normalizer maps the raw est_ats field to true exactly when it is
the boolean true, the number 1, or the string "1"; every other value
normalizes to false. -/
theorem claim9_est_ats_coercion (v : Dash.JsVal) :
    Dash.estAtsOf v = true ↔ (v = .b true ∨ v = .num 1 ∨ v = .str "1") :=
  estAtsOf_true_iff v

/-- A raw record whose titre alias carries surrounding whitespace. -/
def rawTitreWs : Dash.RawTender := { id := 1, titre := some "  Crm  " }

/-- C4 counterexample: the normalizer keeps the first non-empty alias value
verbatim; surrounding whitespace is not trimmed, contradicting the trimming
part of the claim. -/
theorem claim4_counterexample :
    (Dash.normalizeTender rawTitreWs).titre = "  Crm  " ∧
    jsTrim "  Crm  " = "Crm" ∧
    (Dash.normalizeTender rawTitreWs).titre ≠ jsTrim "  Crm  " := by
  refine ⟨rfl, by decide, by decide⟩

theorem jsOr_probe_nil (a : Option String) : jsOr a "" = specProbeFirst [a] := by
  cases a with
  | none => rfl
  | some s => by_cases h : s = "" <;> simp [jsOr, specProbeFirst, h]

theorem jsOr_probe_cons (a : Option String) (rest : List (Option String)) (b : String)
    (hb : b = specProbeFirst rest) : jsOr a b = specProbeFirst (a :: rest) := by
  cases a with
  | none => simpa [jsOr, specProbeFirst] using hb
  | some s => by_cases h : s = "" <;> simp [jsOr, specProbeFirst, h, hb]

/-- C4 amended: for each canonical field the normalizer returns the first
non-empty value found along the field's fixed, ordered alias list, verbatim
(without trimming); when no alias yields a non-empty value, the field
normalizes to the empty string. -/
theorem claim4_first_nonempty_alias (raw : Dash.RawTender) :
    Dash.normalizeTender raw =
      { id := raw.id
        titre := specProbeFirst [raw.titre, raw.title]
        acheteur := specProbeFirst [raw.acheteur, raw.buyer]
        pays := specProbeFirst [raw.pays, raw.country]
        region := specProbeFirst [raw.region]
        date_publication := specProbeFirst [raw.date_publication, raw.published_at]
        date_cloture := specProbeFirst [raw.date_cloture]
        portail := specProbeFirst [raw.portail, raw.portal_name, raw.source]
        lien := specProbeFirst [raw.lien, raw.url]
        est_ats := Dash.estAtsOf raw.est_ats } := by
  unfold Dash.normalizeTender
  simp only [Dash.Tender.mk.injEq]
  refine ⟨trivial, ?_, ?_, ?_, ?_, ?_, ?_, ?_, ?_, trivial⟩
  · exact jsOr_probe_cons _ _ _ (jsOr_probe_nil raw.title)
  · exact jsOr_probe_cons _ _ _ (jsOr_probe_nil raw.buyer)
  · exact jsOr_probe_cons _ _ _ (jsOr_probe_nil raw.country)
  · exact jsOr_probe_nil raw.region
  · exact jsOr_probe_cons _ _ _ (jsOr_probe_nil raw.published_at)
  · exact jsOr_probe_nil raw.date_cloture
  · exact jsOr_probe_cons _ _ _ (jsOr_probe_cons _ _ _ (jsOr_probe_nil raw.source))
  · exact jsOr_probe_cons _ _ _ (jsOr_probe_nil raw.url)

/-- A field alias that yields no usable value: absent or the empty string. -/
def emptyAlias (o : Option String) : Prop := o = none ∨ o = some ""

theorem jsOr_of_emptyAlias (a : Option String) (b : String) (h : emptyAlias a) :
    jsOr a b = b := by
  rcases h with h | h <;> rw [h] <;> simp [jsOr]

/-- C5: normalization is total and never fails: every raw record yields a
canonical record, and each field all of whose aliases are absent or empty
(or, for est_ats, not one of the three truthy encodings) normalizes to the
empty/false default. -/
theorem claim5_normalizer_total (raw : Dash.RawTender) :
    (emptyAlias raw.titre → emptyAlias raw.title →
      (Dash.normalizeTender raw).titre = "") ∧
    (emptyAlias raw.acheteur → emptyAlias raw.buyer →
      (Dash.normalizeTender raw).acheteur = "") ∧
    (emptyAlias raw.pays → emptyAlias raw.country →
      (Dash.normalizeTender raw).pays = "") ∧
    (emptyAlias raw.region → (Dash.normalizeTender raw).region = "") ∧
    (emptyAlias raw.date_publication → emptyAlias raw.published_at →
      (Dash.normalizeTender raw).date_publication = "") ∧
    (emptyAlias raw.date_cloture → (Dash.normalizeTender raw).date_cloture = "") ∧
    (emptyAlias raw.portail → emptyAlias raw.portal_name → emptyAlias raw.source →
      (Dash.normalizeTender raw).portail = "") ∧
    (emptyAlias raw.lien → emptyAlias raw.url → (Dash.normalizeTender raw).lien = "") ∧
    (raw.est_ats ≠ .b true → raw.est_ats ≠ .num 1 → raw.est_ats ≠ .str "1" →
      (Dash.normalizeTender raw).est_ats = false) := by
  unfold Dash.normalizeTender
  simp only
  refine ⟨?_, ?_, ?_, ?_, ?_, ?_, ?_, ?_, ?_⟩
  · intro h1 h2
    rw [jsOr_of_emptyAlias _ _ h1, jsOr_of_emptyAlias _ _ h2]
  · intro h1 h2
    rw [jsOr_of_emptyAlias _ _ h1, jsOr_of_emptyAlias _ _ h2]
  · intro h1 h2
    rw [jsOr_of_emptyAlias _ _ h1, jsOr_of_emptyAlias _ _ h2]
  · intro h1
    rw [jsOr_of_emptyAlias _ _ h1]
  · intro h1 h2
    rw [jsOr_of_emptyAlias _ _ h1, jsOr_of_emptyAlias _ _ h2]
  · intro h1
    rw [jsOr_of_emptyAlias _ _ h1]
  · intro h1 h2 h3
    rw [jsOr_of_emptyAlias _ _ h1, jsOr_of_emptyAlias _ _ h2, jsOr_of_emptyAlias _ _ h3]
  · intro h1 h2
    rw [jsOr_of_emptyAlias _ _ h1, jsOr_of_emptyAlias _ _ h2]
  · intro h1 h2 h3
    cases hv : Dash.estAtsOf raw.est_ats
    · rfl
    · rcases (estAtsOf_true_iff raw.est_ats).mp hv with h | h | h
      · exact absurd h h1
      · exact absurd h h2
      · exact absurd h h3

/-- A raw record in which every aliased field is absent. -/
def rawAllAbsent : Dash.RawTender := { id := 0 }

/-- C5 witness: on the record with every aliased field absent, every canonical
field normalizes to the empty/false default. -/
theorem claim5_witness :
    (Dash.normalizeTender rawAllAbsent).titre = "" ∧
    (Dash.normalizeTender rawAllAbsent).acheteur = "" ∧
    (Dash.normalizeTender rawAllAbsent).pays = "" ∧
    (Dash.normalizeTender rawAllAbsent).region = "" ∧
    (Dash.normalizeTender rawAllAbsent).date_publication = "" ∧
    (Dash.normalizeTender rawAllAbsent).date_cloture = "" ∧
    (Dash.normalizeTender rawAllAbsent).portail = "" ∧
    (Dash.normalizeTender rawAllAbsent).lien = "" ∧
    (Dash.normalizeTender rawAllAbsent).est_ats = false := by
  have h := claim5_normalizer_total rawAllAbsent
  exact ⟨h.1 (Or.inl rfl) (Or.inl rfl),
    h.2.1 (Or.inl rfl) (Or.inl rfl),
    h.2.2.1 (Or.inl rfl) (Or.inl rfl),
    h.2.2.2.1 (Or.inl rfl),
    h.2.2.2.2.1 (Or.inl rfl) (Or.inl rfl),
    h.2.2.2.2.2.1 (Or.inl rfl),
    h.2.2.2.2.2.2.1 (Or.inl rfl) (Or.inl rfl) (Or.inl rfl),
    h.2.2.2.2.2.2.2.1 (Or.inl rfl) (Or.inl rfl),
    h.2.2.2.2.2.2.2.2 (by decide) (by decide) (by decide)⟩

theorem toggleColumn_id_fixed (s : Finset Table.ColumnKey) :
    Table.toggleColumn .id s = s := rfl

theorem toggleColumn_title_fixed (s : Finset Table.ColumnKey) :
    Table.toggleColumn .title s = s := rfl

theorem mem_toggleColumn_of_fixed (x : Table.ColumnKey)
    (hx : ∀ s : Finset Table.ColumnKey, Table.toggleColumn x s = s)
    (k : Table.ColumnKey) (s : Finset Table.ColumnKey) (hmem : x ∈ s) :
    x ∈ Table.toggleColumn k s := by
  by_cases hk : k = x
  · rw [hk, hx s]
    exact hmem
  · simp only [Table.toggleColumn]
    split_ifs with h1 h2
    · exact hmem
    · exact Finset.mem_erase.mpr ⟨fun he => hk (he.symm), hmem⟩
    · exact Finset.mem_insert_of_mem hmem

theorem mem_foldl_toggle_of_fixed (x : Table.ColumnKey)
    (hx : ∀ s : Finset Table.ColumnKey, Table.toggleColumn x s = s) :
    ∀ (keys : List Table.ColumnKey) (s : Finset Table.ColumnKey), x ∈ s →
      x ∈ keys.foldl (fun acc k => Table.toggleColumn k acc) s := by
  intro keys
  induction keys with
  | nil => intro s hmem; simpa using hmem
  | cons k ks ih =>
    intro s hmem
    simp only [List.foldl_cons]
    exact ih _ (mem_toggleColumn_of_fixed x hx k s hmem)

/-- C10: the id and title columns are visible in every reachable state of the
column-visibility set: the initial state contains both, toggleColumn leaves
the state unchanged on the locked id and title columns, and hence no sequence
of toggleColumn calls can remove id or title. -/
theorem claim10_locked_columns (keys : List Table.ColumnKey)
    (s : Finset Table.ColumnKey) :
    (Table.ColumnKey.id ∈ Table.initialVisibleColumns ∧
     Table.ColumnKey.title ∈ Table.initialVisibleColumns) ∧
    (Table.toggleColumn .id s = s ∧ Table.toggleColumn .title s = s) ∧
    (Table.ColumnKey.id ∈
        keys.foldl (fun acc k => Table.toggleColumn k acc) Table.initialVisibleColumns ∧
     Table.ColumnKey.title ∈
        keys.foldl (fun acc k => Table.toggleColumn k acc) Table.initialVisibleColumns) := by
  refine ⟨⟨by decide, by decide⟩,
    ⟨toggleColumn_id_fixed s, toggleColumn_title_fixed s⟩, ?_, ?_⟩
  · exact mem_foldl_toggle_of_fixed _ toggleColumn_id_fixed keys _ (by decide)
  · exact mem_foldl_toggle_of_fixed _ toggleColumn_title_fixed keys _ (by decide)

theorem jsLower_eq_empty_iff (s : String) : jsLower s = "" ↔ s = "" := by
  cases s with
  | mk l =>
    cases l with
    | nil => simp [jsLower]
    | cons c cs =>
      constructor
      · intro h
        exact absurd (congrArg String.data h) (by simp [jsLower])
      · intro h
        exact absurd (congrArg String.data h) (by simp)

/-- The text-match condition of the dashboard query filter, per search
field. -/
def searchCond (query : String) (sf : Dash.SearchField) (t : Dash.Tender) : Prop :=
  jsLower (jsTrim query) = "" ∨
  (match sf with
   | .title => strContains (jsLower t.titre) (jsLower (jsTrim query)) = true
   | .buyer => strContains (jsLower t.acheteur) (jsLower (jsTrim query)) = true
   | .title_buyer => strContains (jsLower t.titre) (jsLower (jsTrim query)) = true ∨
       strContains (jsLower t.acheteur) (jsLower (jsTrim query)) = true)

theorem mem_visibleTenders (tenders : List Dash.Tender) (pf cf : String) (ats : Bool)
    (query : String) (sf : Dash.SearchField) (t : Dash.Tender) :
    t ∈ Dash.visibleTenders tenders pf cf ats query sf ↔
      t ∈ tenders ∧
      (pf = "ALL" ∨ jsTrim t.portail = pf) ∧
      (cf = "ALL" ∨ jsTrim t.pays = cf) ∧
      (ats = true → t.est_ats = true) ∧
      searchCond query sf t := by
  cases sf <;> by_cases h1 : pf = "ALL" <;> by_cases h2 : cf = "ALL" <;>
    cases ats <;> by_cases h4 : jsLower (jsTrim query) = "" <;>
      simp [Dash.visibleTenders, searchCond, h1, h2, h4, List.mem_filter,
        bne_iff_ne, beq_iff_eq, Bool.or_eq_true, and_assoc] <;> tauto

/-- C2: for a query that is non-empty after trimming, the dashboard filter
with search_field = title keeps exactly the tenders whose lowercased title
contains the lowercased (trimmed) query as a substring; with buyer, exactly
those whose lowercased buyer contains it; with title_buyer, exactly those
where the title or the buyer contains it; no other field takes part in the
text match. -/
theorem claim2_search_field_match (tenders : List Dash.Tender) (pf cf : String)
    (ats : Bool) (query : String) (sf : Dash.SearchField) (t : Dash.Tender)
    (hq : jsTrim query ≠ "") :
    t ∈ Dash.visibleTenders tenders pf cf ats query sf ↔
      t ∈ Dash.visibleTenders tenders pf cf ats "" sf ∧
      (match sf with
       | .title => (jsLower (jsTrim query)).data <:+: (jsLower t.titre).data
       | .buyer => (jsLower (jsTrim query)).data <:+: (jsLower t.acheteur).data
       | .title_buyer =>
           (jsLower (jsTrim query)).data <:+: (jsLower t.titre).data ∨
           (jsLower (jsTrim query)).data <:+: (jsLower t.acheteur).data) := by
  have hq2 : ¬ jsLower (jsTrim query) = "" := fun h => hq ((jsLower_eq_empty_iff _).mp h)
  have h0 : jsLower (jsTrim "") = "" := rfl
  rw [mem_visibleTenders, mem_visibleTenders]
  cases sf <;> simp [searchCond, hq2, h0, strContains_iff] <;> tauto

/-- A concrete ERP tender used as witness input. -/
def tOdoo : Dash.Tender :=
  { id := 1, titre := "Odoo ERP", acheteur := "Ville", pays := "CA", region := "",
    date_publication := "", date_cloture := "", portail := "SEAO", lien := "",
    est_ats := true }

/-- C2 witness: the title search at the concrete query "Odoo". -/
theorem claim2_witness :
    tOdoo ∈ Dash.visibleTenders [tOdoo] "ALL" "ALL" false "Odoo" .title ↔
      tOdoo ∈ Dash.visibleTenders [tOdoo] "ALL" "ALL" false "" .title ∧
      (jsLower (jsTrim "Odoo")).data <:+: (jsLower tOdoo.titre).data :=
  claim2_search_field_match [tOdoo] "ALL" "ALL" false "Odoo" .title tOdoo (by decide)

/-- C7: with ats_only = true every tender in the filtered result is
ATS-tagged, and with ats_only = false the option removes no tender: the
membership condition mentions no est_ats constraint at all. -/
theorem claim7_ats_only (tenders : List Dash.Tender) (pf cf query : String)
    (sf : Dash.SearchField) :
    (∀ t ∈ Dash.visibleTenders tenders pf cf true query sf, t.est_ats = true) ∧
    (∀ t, t ∈ Dash.visibleTenders tenders pf cf false query sf ↔
      t ∈ tenders ∧ (pf = "ALL" ∨ jsTrim t.portail = pf) ∧
      (cf = "ALL" ∨ jsTrim t.pays = cf) ∧ searchCond query sf t) := by
  constructor
  · intro t ht
    exact ((mem_visibleTenders tenders pf cf true query sf t).mp ht).2.2.2.1 rfl
  · intro t
    rw [mem_visibleTenders]
    simp

/-- A concrete ATS-tagged tender used as witness input. -/
def tAts : Dash.Tender :=
  { id := 2, titre := "ATS RH", acheteur := "Ville", pays := "CA", region := "",
    date_publication := "", date_cloture := "", portail := "SEAO", lien := "",
    est_ats := true }

/-- C7 witness: at a concrete store, a tender surviving the ats_only filter is
ATS-tagged, and the ats_only = false membership condition carries no est_ats
constraint. -/
theorem claim7_witness :
    tAts.est_ats = true ∧
    (tAts ∈ Dash.visibleTenders [tAts] "ALL" "ALL" false "" .title ↔
      tAts ∈ [tAts] ∧ ("ALL" = "ALL" ∨ jsTrim tAts.portail = "ALL") ∧
      ("ALL" = "ALL" ∨ jsTrim tAts.pays = "ALL") ∧ searchCond "" .title tAts) :=
  ⟨(claim7_ats_only [tAts] "ALL" "ALL" "" .title).1 tAts (by decide),
   (claim7_ats_only [tAts] "ALL" "ALL" "" .title).2 tAts⟩

theorem mem_filteredTenders (tenders : List Table.Tender) (cf pf q : String)
    (qf : Table.QuickField) (qv : String) (st : Table.SortState) (t : Table.Tender) :
    t ∈ Table.filteredTenders tenders cf pf q qf qv st ↔
      t ∈ tenders ∧
      (cf = "ALL" ∨ jsUpper (t.country.getD "") = jsUpper cf) ∧
      (pf = "ALL" ∨ jsUpper t.portal = jsUpper pf ∨ jsUpper t.source = jsUpper pf) ∧
      (jsTrim q = "" ∨ (Table.queryTerms q).all (fun term => Table.queryHit t term) = true) ∧
      (jsTrim qv = "" ∨ strContains (jsLower (Table.quickVal qf t)) (jsLower (jsTrim qv)) = true) := by
  by_cases h1 : cf = "ALL" <;> by_cases h2 : pf = "ALL" <;>
    by_cases h3 : jsTrim q = "" <;> by_cases h4 : jsTrim qv = "" <;>
      simp [Table.filteredTenders, h1, h2, h3, h4, mem_sortWith, List.mem_filter,
        bne_iff_ne, beq_iff_eq, Bool.or_eq_true, and_assoc] <;> tauto

/-- A concrete tender whose country field is the lower-case string "ca". -/
def tCaLower : Table.Tender :=
  { id := 1, source := "seao", portal := "SEAO", country := some "ca",
    title := "T", url := "" }

/-- C3 counterexample: with the country filter set to "CA", the filter keeps a
tender whose country field is "ca", which is not an exact match of the
configured value; the comparison is case-insensitive, not exact. -/
theorem claim3_counterexample :
    tCaLower ∈ Table.filteredTenders [tCaLower] "CA" "ALL" "" .title "" Table.initialSortState ∧
    tCaLower.country ≠ some "CA" := by
  refine ⟨by decide, by decide⟩

/-- C3 amended: when the country filter option is a value other than "ALL",
the filter keeps exactly the tenders whose country field (defaulted to the
empty string when null) matches the configured value case-insensitively,
compared after uppercasing; when the option is "ALL", the country condition
removes no tender. -/
theorem claim3_country_filter (tenders : List Table.Tender) (cf pf q : String)
    (qf : Table.QuickField) (qv : String) (st : Table.SortState) (t : Table.Tender)
    (hcf : cf ≠ "ALL") :
    t ∈ Table.filteredTenders tenders cf pf q qf qv st ↔
      t ∈ Table.filteredTenders tenders "ALL" pf q qf qv st ∧
      jsUpper (t.country.getD "") = jsUpper cf := by
  rw [mem_filteredTenders, mem_filteredTenders]
  simp only [hcf, false_or, eq_self_iff_true, true_or]
  tauto

/-- C3 witness: the amended claim at the concrete country filter "CA". -/
theorem claim3_witness :
    tCaLower ∈ Table.filteredTenders [tCaLower] "CA" "ALL" "" .title "" Table.initialSortState ↔
      tCaLower ∈ Table.filteredTenders [tCaLower] "ALL" "ALL" "" .title "" Table.initialSortState ∧
      jsUpper (tCaLower.country.getD "") = jsUpper "CA" :=
  claim3_country_filter [tCaLower] "CA" "ALL" "" .title "" Table.initialSortState
    tCaLower (by decide)

theorem strLeB_refl (s : String) : strLeB s s = true := by
  rw [strLeB_iff, (listCmp_eq_iff s.data s.data).mpr rfl]
  simp

theorem sortCmp_default_le_iff (a b : Table.Tender) :
    Table.sortCmp Table.initialSortState a b ≤ 0 ↔
      strLeB (b.published_at.getD "") (a.published_at.getD "") = true := by
  have hkey : Table.sortCmp Table.initialSortState a b =
      (if (a.published_at.getD "" == b.published_at.getD "") then (0 : Int)
       else if strGtB (a.published_at.getD "") (b.published_at.getD "") then -1 else 1) := rfl
  rw [hkey]
  by_cases he : a.published_at.getD "" = b.published_at.getD ""
  · rw [if_pos (by simpa using he), he]
    simp [strLeB_refl]
  · rw [if_neg (by simpa using he)]
    by_cases hg : strGtB (a.published_at.getD "") (b.published_at.getD "") = true
    · rw [if_pos hg]
      apply iff_of_true
      · decide
      · rw [strLeB_iff, (listCmp_gt_iff _ _).mp ((strGtB_iff _ _).mp hg)]
        simp
    · rw [if_neg hg]
      apply iff_of_false
      · decide
      · rw [strLeB_iff]
        have hgt : listCmp (b.published_at.getD "").data (a.published_at.getD "").data
            = .gt := by
          cases hcab : listCmp (a.published_at.getD "").data (b.published_at.getD "").data
          · exact (listCmp_gt_iff _ _).mpr hcab
          · exact absurd (String.toList_inj.mp ((listCmp_eq_iff _ _).mp hcab)) he
          · exact absurd ((strGtB_iff _ _).mpr hcab) hg
        exact fun hnn => hnn hgt

theorem defaultLe_total (x y : Table.Tender) :
    decide (Table.sortCmp Table.initialSortState x y ≤ 0) = true ∨
    decide (Table.sortCmp Table.initialSortState y x ≤ 0) = true := by
  rcases strLeB_total (y.published_at.getD "") (x.published_at.getD "") with h | h
  · left
    simpa [decide_eq_true_eq] using (sortCmp_default_le_iff x y).mpr h
  · right
    simpa [decide_eq_true_eq] using (sortCmp_default_le_iff y x).mpr h

theorem defaultLe_trans (x y z : Table.Tender)
    (h1 : decide (Table.sortCmp Table.initialSortState x y ≤ 0) = true)
    (h2 : decide (Table.sortCmp Table.initialSortState y z ≤ 0) = true) :
    decide (Table.sortCmp Table.initialSortState x z ≤ 0) = true := by
  rw [decide_eq_true_eq] at h1 h2 ⊢
  rw [sortCmp_default_le_iff] at h1 h2 ⊢
  exact strLeB_trans _ _ _ h2 h1

/-- C6: with the initial sort state (the caller chooses no sort key), the
table rows come out ordered by published_at descending: for every adjacent
pair, the published_at of the earlier element (null defaulted to the empty
string) is greater than or equal to that of the later element in the modelled
JavaScript string order. -/
theorem claim6_default_sort_desc (tenders : List Table.Tender) (cf pf q : String)
    (qf : Table.QuickField) (qv : String) :
    List.Chain' (fun a b => strLeB (b.published_at.getD "") (a.published_at.getD "") = true)
      (Table.filteredTenders tenders cf pf q qf qv Table.initialSortState) := by
  apply List.Pairwise.chain'
  have hp := pairwise_sortWith
    (fun a b => decide (Table.sortCmp Table.initialSortState a b ≤ 0))
    defaultLe_total defaultLe_trans
  refine List.Pairwise.imp ?_ (hp _)
  intro a b h
  exact (sortCmp_default_le_iff a b).mp (by simpa [decide_eq_true_eq] using h)
